import Mathlib

/-!
Verification of htm.core components against their specification.

Part 1 models `nupic::util::SlidingWindow<T>` from
`src/unnamed/part_002` (SlidingWindow.hpp): a bounded ring buffer with a
fixed positive capacity, an internal vector `buffer_` and a write cursor
`idxNext_`.

Part 2 models the serialization-format selection switch of
`src/bindings/py/cpp_src/bindings/math/py_Random.cpp` (saveToFile /
loadFromFile).

Part 3 models the SDR representation core and the Reshape view tree.  The
implementation files (Sdr.hpp / SdrTools.hpp) are not part of the provided
sources — only their unit tests are — so those definitions are modelled
from the specification, as indicated by their doc comments.
-/

namespace HtmCore

/-- State of `nupic::util::SlidingWindow<T>`: the fixed capacity
`maxCapacity`, the internal vector `buffer_`, and the index `idxNext_` of
the slot written by the next append once the buffer is full. -/
structure SlidingWindow (T : Type) where
  maxCapacity : Nat
  buffer_ : List T
  idxNext_ : Nat
deriving DecidableEq

namespace SlidingWindow

variable {T : Type}

/-- Constructor `SlidingWindow(UInt maxCapacity)`: `NTA_CHECK(maxCapacity > 0)`
throws for a zero capacity (modelled as `none`); otherwise the window starts
with an empty buffer and `idxNext_ = 0`. -/
def make (T : Type) (maxCapacity : Nat) : Option (SlidingWindow T) :=
  if 0 < maxCapacity then
    some { maxCapacity := maxCapacity, buffer_ := [], idxNext_ := 0 }
  else none

/-- Method `size()`: the number of currently stored elements. -/
def size (w : SlidingWindow T) : Nat := w.buffer_.length

/-- Method `append(T newValue)`: push_back while below capacity, otherwise
overwrite the slot `idxNext_`; in both cases advance `idxNext_` by one
modulo `maxCapacity`. -/
def append (w : SlidingWindow T) (newValue : T) : SlidingWindow T :=
  { w with
    buffer_ :=
      if w.size < w.maxCapacity then w.buffer_ ++ [newValue]
      else w.buffer_.set w.idxNext_ newValue,
    idxNext_ := (w.idxNext_ + 1) % w.maxCapacity }

/-- Method `append(T newValue, T& droppedValue)`: records whether the buffer
was full before the call; when full, the element at `idxNext_` (the one about
to be overwritten) is reported as dropped, and `none` models "droppedValue is
left unchanged"; then the one-argument `append` runs. -/
def appendDropped (w : SlidingWindow T) (newValue : T) :
    Bool × Option T × SlidingWindow T :=
  let isFull := w.buffer_.length == w.maxCapacity
  (isFull, if isFull then w.buffer_[w.idxNext_]? else none, w.append newValue)

/-- Method `getData()`: direct access to the unordered internal buffer. -/
def getData (w : SlidingWindow T) : List T := w.buffer_

/-- Contiguous iterator range `[a, b)` of a vector, as passed to the two
`std::vector::insert` calls inside `getLinearizedData`. -/
def segment (l : List T) (a b : Nat) : List T := (l.drop a).take (b - a)

/-- Method `getLinearizedData()`: starting from an empty vector, inserts the
range `[begin + idxNext_, end)` at the front, then appends the range
`[begin, begin + idxNext_)`, yielding the elements ordered oldest to
newest. -/
def getLinearizedData (w : SlidingWindow T) : List T :=
  let lin : List T := []
  let lin := segment w.buffer_ w.idxNext_ w.buffer_.length ++ lin
  let lin := lin ++ segment w.buffer_ 0 w.idxNext_
  lin

/-- A sequence of `append` calls. -/
def appendList (w : SlidingWindow T) (vs : List T) : SlidingWindow T :=
  vs.foldl append w

/-- Well-formedness of a window state; it holds for every state reachable
from the constructor through `append` calls. -/
def Valid (w : SlidingWindow T) : Prop :=
  0 < w.maxCapacity ∧ w.buffer_.length ≤ w.maxCapacity ∧
    w.idxNext_ < w.maxCapacity ∧
    (w.buffer_.length < w.maxCapacity → w.idxNext_ = w.buffer_.length)

instance (w : SlidingWindow T) : Decidable w.Valid := by
  unfold Valid; infer_instance

theorem make_valid {cap : Nat} {w : SlidingWindow T}
    (h : make T cap = some w) : w.Valid := by
  unfold make at h
  split at h
  · cases h
    refine ⟨by assumption, by simp, by assumption, by simp⟩
  · cases h

theorem append_valid {w : SlidingWindow T} (hv : w.Valid) (v : T) :
    (w.append v).Valid := by
  obtain ⟨hcap, hle, hidx, hpart⟩ := hv
  have hcap2 : (w.append v).maxCapacity = w.maxCapacity := rfl
  have hidx2 : (w.append v).idxNext_ = (w.idxNext_ + 1) % w.maxCapacity := rfl
  by_cases h : w.buffer_.length < w.maxCapacity
  · have hb : (w.append v).buffer_ = w.buffer_ ++ [v] := by
      simp [append, size, h]
    refine ⟨hcap, ?_, ?_, ?_⟩
    · rw [hb, hcap2]; simp only [List.length_append, List.length_cons,
        List.length_nil]; omega
    · rw [hidx2, hcap2]; exact Nat.mod_lt _ hcap
    · rw [hb, hcap2, hidx2]
      intro hlt
      simp only [List.length_append, List.length_cons, List.length_nil]
        at hlt ⊢
      rw [hpart h, Nat.mod_eq_of_lt (by omega)]
  · have hb : (w.append v).buffer_ = w.buffer_.set w.idxNext_ v := by
      simp [append, size, h]
    refine ⟨hcap, ?_, ?_, ?_⟩
    · rw [hb, hcap2]; rw [List.length_set]; exact hle
    · rw [hidx2, hcap2]; exact Nat.mod_lt _ hcap
    · rw [hb, hcap2]
      intro hlt
      rw [List.length_set] at hlt
      omega

theorem appendList_valid {w : SlidingWindow T} (hv : w.Valid) (vs : List T) :
    (w.appendList vs).Valid := by
  induction vs generalizing w with
  | nil => exact hv
  | cons v vs ih => exact ih (append_valid hv v)

theorem appendList_maxCapacity (w : SlidingWindow T) (vs : List T) :
    (w.appendList vs).maxCapacity = w.maxCapacity := by
  induction vs generalizing w with
  | nil => rfl
  | cons v vs ih => exact (ih (w.append v)).trans rfl

theorem appendList_size_le {w : SlidingWindow T} (hv : w.Valid)
    (vs : List T) : (w.appendList vs).size ≤ w.maxCapacity := by
  have h := (appendList_valid hv vs).2.1
  rw [appendList_maxCapacity] at h
  exact h

theorem getLinearizedData_eq (w : SlidingWindow T) :
    w.getLinearizedData =
      w.buffer_.drop w.idxNext_ ++ w.buffer_.take w.idxNext_ := by
  unfold getLinearizedData segment
  simp only [List.append_nil, List.drop_zero, Nat.sub_zero]
  rw [List.take_of_length_le (by simp)]

theorem append_size_full {w : SlidingWindow T}
    (hfull : w.buffer_.length = w.maxCapacity) (v : T) :
    (w.append v).size = w.maxCapacity := by
  unfold append size
  simp [size, hfull]

theorem append_full_linearized {w : SlidingWindow T} (hv : w.Valid)
    (hfull : w.buffer_.length = w.maxCapacity) (v : T) :
    (w.append v).getLinearizedData = w.getLinearizedData.tail ++ [v] := by
  obtain ⟨hcap, hle, hidx, -⟩ := hv
  have hlt : w.idxNext_ < w.buffer_.length := hfull ▸ hidx
  have hnotlt : ¬ w.size < w.maxCapacity := by simp [size, hfull]
  rw [getLinearizedData_eq, getLinearizedData_eq]
  have hbuf : (w.append v).buffer_ = w.buffer_.set w.idxNext_ v := by
    simp [append, hnotlt]
  have hidx2 : (w.append v).idxNext_ = (w.idxNext_ + 1) % w.maxCapacity := rfl
  have hdropne : w.buffer_.drop w.idxNext_ ≠ [] := by
    simp [List.drop_eq_nil_iff]; omega
  rw [List.tail_append_of_ne_nil hdropne, List.tail_drop]
  rw [hbuf, hidx2]
  by_cases h : w.idxNext_ + 1 < w.maxCapacity
  · rw [Nat.mod_eq_of_lt h]
    have hdrop :
        (w.buffer_.set w.idxNext_ v).drop (w.idxNext_ + 1) =
          w.buffer_.drop (w.idxNext_ + 1) := by
      rw [List.drop_set, if_pos (by omega)]
    have htake :
        (w.buffer_.set w.idxNext_ v).take (w.idxNext_ + 1) =
          w.buffer_.take w.idxNext_ ++ [v] := by
      rw [List.set_take, List.take_succ]
      have hget : w.buffer_[w.idxNext_]? =
          some (w.buffer_.get ⟨w.idxNext_, hlt⟩) := by
        simp [List.getElem?_eq_getElem hlt]
      rw [hget]
      simp only [Option.toList_some]
      rw [List.set_append]
      have hlen : (w.buffer_.take w.idxNext_).length = w.idxNext_ := by
        rw [List.length_take]; omega
      rw [if_neg (by omega), hlen]
      simp
    rw [hdrop, htake, List.append_assoc]
  · have heq : w.idxNext_ + 1 = w.maxCapacity := by omega
    have hend : w.buffer_.drop (w.idxNext_ + 1) = [] := by
      rw [List.drop_eq_nil_iff]; omega
    have hmod : (w.idxNext_ + 1) % w.maxCapacity = 0 := by
      rw [heq]; exact Nat.mod_self _
    rw [hmod, List.drop_zero, List.take_zero, List.append_nil, hend,
      List.nil_append, List.set_eq_take_cons_drop v hlt, hend]

end SlidingWindow

/-- C8: for every SlidingWindow constructed with maxCapacity > 0
(construction with maxCapacity = 0 fails), size() <= maxCapacity holds after
every sequence of append calls; once size() reaches maxCapacity, each
further append overwrites exactly the oldest stored element (the linearized
contents lose their head and gain the new value at the end) and size() stays
equal to maxCapacity. -/
theorem slidingWindow_capacity_invariant (T : Type) (cap : Nat)
    (hcap : 0 < cap) (vs : List T) (v : T) :
    SlidingWindow.make T 0 = none ∧
    ∃ w0 : SlidingWindow T, SlidingWindow.make T cap = some w0 ∧
      (w0.appendList vs).size ≤ cap ∧
      ((w0.appendList vs).size = cap →
        ((w0.appendList vs).append v).size = cap ∧
        ((w0.appendList vs).append v).getLinearizedData =
          (w0.appendList vs).getLinearizedData.tail ++ [v]) := by
  have hv : ({ maxCapacity := cap, buffer_ := [], idxNext_ := 0 } :
      SlidingWindow T).Valid := ⟨hcap, by simp, hcap, by simp⟩
  refine ⟨by simp [SlidingWindow.make], ?_⟩
  refine ⟨{ maxCapacity := cap, buffer_ := [], idxNext_ := 0 }, ?_, ?_, ?_⟩
  · simp [SlidingWindow.make, hcap]
  · exact SlidingWindow.appendList_size_le hv vs
  · intro hfull
    have hv2 := SlidingWindow.appendList_valid hv vs
    have hmc := SlidingWindow.appendList_maxCapacity
      ({ maxCapacity := cap, buffer_ := [], idxNext_ := 0 } :
        SlidingWindow T) vs
    have hfull2 : (SlidingWindow.appendList
        ({ maxCapacity := cap, buffer_ := [], idxNext_ := 0 } :
          SlidingWindow T) vs).buffer_.length =
        (SlidingWindow.appendList
          ({ maxCapacity := cap, buffer_ := [], idxNext_ := 0 } :
            SlidingWindow T) vs).maxCapacity := by
      rw [hmc]; exact hfull
    constructor
    · have h := SlidingWindow.append_size_full hfull2 v
      rw [hmc] at h; exact h
    · exact SlidingWindow.append_full_linearized hv2 hfull2 v

/-- Witness for C8 at capacity 2 with four appended values. -/
theorem slidingWindow_capacity_invariant_witness :
    0 < 2 ∧
    (SlidingWindow.make Nat 0 = none ∧
    ∃ w0 : SlidingWindow Nat, SlidingWindow.make Nat 2 = some w0 ∧
      (w0.appendList [10, 20, 30]).size ≤ 2 ∧
      ((w0.appendList [10, 20, 30]).size = 2 →
        ((w0.appendList [10, 20, 30]).append 40).size = 2 ∧
        ((w0.appendList [10, 20, 30]).append 40).getLinearizedData =
          (w0.appendList [10, 20, 30]).getLinearizedData.tail ++ [40])) :=
  ⟨by decide, slidingWindow_capacity_invariant Nat 2 (by decide) [10, 20, 30] 40⟩

/-- C9: append(newValue, droppedValue) returns true iff the window was full
before the call; when true, droppedValue is the oldest stored element (the
head of the linearized data, which exists), when false droppedValue is left
unchanged (modelled as none), and the resulting window state is that of the
one-argument append(newValue). -/
theorem slidingWindow_appendDropped_spec (T : Type) (w : SlidingWindow T)
    (hv : w.Valid) (v : T) :
    ((w.appendDropped v).1 = true ↔ w.size = w.maxCapacity) ∧
    ((w.appendDropped v).1 = true →
      (w.appendDropped v).2.1 = w.getLinearizedData.head? ∧
      (w.appendDropped v).2.1.isSome = true) ∧
    ((w.appendDropped v).1 = false → (w.appendDropped v).2.1 = none) ∧
    (w.appendDropped v).2.2 = w.append v := by
  obtain ⟨hcap, hle, hidx, -⟩ := hv
  refine ⟨?_, ?_, ?_, rfl⟩
  · simp [SlidingWindow.appendDropped, SlidingWindow.size]
  · intro hfull
    have hfull2 : w.buffer_.length = w.maxCapacity := by
      simpa [SlidingWindow.appendDropped] using hfull
    have hlt : w.idxNext_ < w.buffer_.length := hfull2 ▸ hidx
    have hne : w.buffer_.drop w.idxNext_ ≠ [] := by
      simp [List.drop_eq_nil_iff]; omega
    constructor
    · rw [SlidingWindow.getLinearizedData_eq,
        List.head?_append_of_ne_nil _ hne, List.head?_drop]
      simp [SlidingWindow.appendDropped, hfull2]
    · simp [SlidingWindow.appendDropped, hfull2,
        List.getElem?_eq_getElem hlt]
  · intro hnot
    have hne : w.buffer_.length ≠ w.maxCapacity := by
      intro h
      simp [SlidingWindow.appendDropped, h] at hnot
    simp [SlidingWindow.appendDropped, hne]

/-- Concrete full window of capacity 2 used by the C9 witness. -/
def fullWindowExample : SlidingWindow Nat :=
  { maxCapacity := 2, buffer_ := [7, 8], idxNext_ := 0 }

/-- Witness for C9 on a concrete full window of capacity 2. -/
theorem slidingWindow_appendDropped_spec_witness :
    fullWindowExample.Valid ∧
    (((fullWindowExample.appendDropped 9).1 = true ↔
        fullWindowExample.size = fullWindowExample.maxCapacity) ∧
      ((fullWindowExample.appendDropped 9).1 = true →
        (fullWindowExample.appendDropped 9).2.1 =
          fullWindowExample.getLinearizedData.head? ∧
        (fullWindowExample.appendDropped 9).2.1.isSome = true) ∧
      ((fullWindowExample.appendDropped 9).1 = false →
        (fullWindowExample.appendDropped 9).2.1 = none) ∧
      (fullWindowExample.appendDropped 9).2.2 =
        fullWindowExample.append 9) :=
  ⟨by decide,
    slidingWindow_appendDropped_spec Nat fullWindowExample (by decide) 9⟩

/-- C10: getLinearizedData() returns the buffer segment from idxNext_ to the
end followed by the segment from the start up to idxNext_, hence a list of
the same length as getData() containing the same elements (the state itself
is unchanged: the operation is modelled as a pure function). -/
theorem slidingWindow_linearized_rotation (T : Type) (w : SlidingWindow T) :
    w.getLinearizedData =
      w.buffer_.drop w.idxNext_ ++ w.buffer_.take w.idxNext_ ∧
    w.getLinearizedData.length = w.getData.length ∧
    w.getLinearizedData.Perm w.getData := by
  have hperm : w.getLinearizedData.Perm w.getData := by
    rw [SlidingWindow.getLinearizedData_eq]
    have h1 : (w.buffer_.drop w.idxNext_ ++ w.buffer_.take w.idxNext_).Perm
        (w.buffer_.take w.idxNext_ ++ w.buffer_.drop w.idxNext_) :=
      List.perm_append_comm
    have h2 : w.buffer_.take w.idxNext_ ++ w.buffer_.drop w.idxNext_ =
        w.getData := List.take_append_drop _ _
    exact h2 ▸ h1
  exact ⟨SlidingWindow.getLinearizedData_eq w, hperm.length_eq, hperm⟩

/-- The four serialization formats of nupic::SerializableFormat, as exposed
by the Python bindings: BINARY, PORTABLE, JSON (text), XML (markup). -/
inductive SerializableFormat where
  | BINARY
  | PORTABLE
  | JSON
  | XML
deriving DecidableEq

/-- Format-selection switch of Random.saveToFile in py_Random.cpp: the
integer argument fmt maps 0, 1, 2, 3 to BINARY, PORTABLE, JSON, XML, and any
other value throws "unknown serialization format.". -/
def saveToFileFormat (fmt : Int) : Except String SerializableFormat :=
  if fmt = 0 then .ok .BINARY
  else if fmt = 1 then .ok .PORTABLE
  else if fmt = 2 then .ok .JSON
  else if fmt = 3 then .ok .XML
  else .error "unknown serialization format."

/-- Format-selection switch of Random.loadFromFile in py_Random.cpp; it is a
separate switch statement in the source with the same cases. -/
def loadFromFileFormat (fmt : Int) : Except String SerializableFormat :=
  if fmt = 0 then .ok .BINARY
  else if fmt = 1 then .ok .PORTABLE
  else if fmt = 2 then .ok .JSON
  else if fmt = 3 then .ok .XML
  else .error "unknown serialization format."

/-- C7: format selection is an integer argument mapping 0, 1, 2, 3 to the
Binary, Portable, Text(JSON) and Markup(XML) formats; save and load use the
same mapping, and every other integer fails with a format error instead of
detection or a silent default. -/
theorem py_random_format_selection (fmt : Int) :
    (saveToFileFormat fmt = .ok .BINARY ↔ fmt = 0) ∧
    (saveToFileFormat fmt = .ok .PORTABLE ↔ fmt = 1) ∧
    (saveToFileFormat fmt = .ok .JSON ↔ fmt = 2) ∧
    (saveToFileFormat fmt = .ok .XML ↔ fmt = 3) ∧
    (saveToFileFormat fmt = .error "unknown serialization format." ↔
      ¬(fmt = 0 ∨ fmt = 1 ∨ fmt = 2 ∨ fmt = 3)) ∧
    loadFromFileFormat fmt = saveToFileFormat fmt := by
  by_cases h0 : fmt = 0
  · simp [saveToFileFormat, loadFromFileFormat, h0]
  by_cases h1 : fmt = 1
  · simp [saveToFileFormat, loadFromFileFormat, h1]
  by_cases h2 : fmt = 2
  · simp [saveToFileFormat, loadFromFileFormat, h2]
  by_cases h3 : fmt = 3
  · simp [saveToFileFormat, loadFromFileFormat, h3]
  simp [saveToFileFormat, loadFromFileFormat, h0, h1, h2, h3]

/-- Error kinds of the SDR core (spec section 7). -/
inductive Err where
  | invalidArgument
  | invalidState
  | formatError
deriving DecidableEq

/-- Modelled from the spec: the three interchangeable encodings of an SDR
(Sdr.hpp is not among the provided sources, only its tests). dense is one
0/1 value per flat index; sparse is a list of distinct flat indices;
coordinate is one list per dimension, the i-th entries across the lists
giving one set bit. -/
inductive Encoding where
  | dense (values : List Nat)
  | sparse (flat : List Nat)
  | coordinate (css : List (List Nat))
deriving DecidableEq

/-- Modelled from the spec: one node of the SDR/Reshape tree. A base SDR has
src = none and owns its authoritative encoding auth; a Reshape view has
src = some s and no bit data of its own (auth is unused for views).
terminal marks the absorbing Detached-Terminal state. -/
structure Node where
  src : Option Nat
  dims : List Nat
  auth : Encoding
  terminal : Bool
deriving DecidableEq

/-- Modelled from the spec: the registration graph of base SDRs and views as
an id-indexed sequence; destroyed nodes stay as none, so ids are never
reused (in C++ each object keeps its address). -/
structure World where
  nodes : List (Option Node)
deriving DecidableEq

/-- Row-major mixed-radix decomposition of flat indices into one output list
per dimension (the coordinate encoding): the first dimension's component of
a flat index f is f / product(rest), and the remainder recurses. -/
def coordsFromFlats (dims : List Nat) (flats : List Nat) : List (List Nat) :=
  match dims with
  | [] => []
  | _ :: rest =>
    flats.map (fun f => f / rest.prod) ::
      coordsFromFlats rest (flats.map (fun f => f % rest.prod))

/-- Row-major mixed-radix composition (Horner scheme) of per-dimension
coordinate lists into flat indices. -/
def flatsFromCoords (dims : List Nat) (css : List (List Nat)) : List Nat :=
  (dims.zip css).foldl
    (fun acc p => List.zipWith (fun a c => a * p.1 + c) acc p.2)
    (List.replicate (css.headD []).length 0)

/-- Positions of the set bits of a dense vector, in ascending order. -/
def densePositions (values : List Nat) : List Nat :=
  (List.range values.length).filter (fun i => values.getD i 0 != 0)

/-- Decoded flat-index list of an encoding under the given dimensions. -/
def flatsOfEncoding (dims : List Nat) : Encoding → List Nat
  | .dense values => densePositions values
  | .sparse flat => flat
  | .coordinate css => flatsFromCoords dims css

/-- Duplicate check used by the setters (duplicate indices are a caller
error). -/
def nodupB (l : List Nat) : Bool := l == l.dedup

/-- Validation of setDense: the value sequence must have exactly size
entries. -/
def denseOkB (dims : List Nat) (values : List Nat) : Bool :=
  values.length == dims.prod

/-- Validation of setSparse: every index within the size bound and no
duplicates. -/
def sparseOkB (dims : List Nat) (flat : List Nat) : Bool :=
  flat.all (· < dims.prod) && nodupB flat

/-- Validation of setCoordinates: one list per dimension, equal lengths,
every component within its dimension bound, and distinct decoded flat
indices (all encodings must decode to a set of distinct flat indices). -/
def coordOkB (dims : List Nat) (css : List (List Nat)) : Bool :=
  css.length == dims.length &&
    css.all (fun cs => cs.length == (css.headD []).length) &&
    (dims.zip css).all (fun p => p.2.all (· < p.1)) &&
    nodupB (flatsFromCoords dims css)

/-- Validation dispatch for a stored encoding. -/
def encodingOkB (dims : List Nat) : Encoding → Bool
  | .dense values => denseOkB dims values
  | .sparse flat => sparseOkB dims flat
  | .coordinate css => coordOkB dims css

/-- Lookup of a node by id; out-of-range and destroyed ids give none. -/
def nodeAt (w : World) (i : Nat) : Option Node :=
  w.nodes.getD i none

/-- Lookup restricted to live (non-terminal) nodes. -/
def liveAt (w : World) (i : Nat) : Option Node :=
  match nodeAt w i with
  | some n => if n.terminal then none else some n
  | none => none

/-- Modelled from the spec: constructing a base SDR validates that the
dimensions are positive and starts with the empty (zero) pattern. -/
def createBase (w : World) (dims : List Nat) : Except Err (World × Nat) :=
  if dims.all (0 < ·) then
    .ok ({ nodes := w.nodes ++
      [some { src := none, dims := dims, auth := .sparse [],
              terminal := false }] },
      w.nodes.length)
  else .error .invalidArgument

/-- Modelled from the spec: constructing a Reshape view checks that the
source exists and is not Detached-Terminal (InvalidState otherwise) and
that product(newDimensions) equals the source size (InvalidArgument
otherwise); on success the view registers as a child of its source, holding
no bit data of its own. -/
def createView (w : World) (src : Nat) (dims : List Nat) :
    Except Err (World × Nat) :=
  match liveAt w src with
  | none => .error .invalidState
  | some n =>
    if dims.prod = n.dims.prod then
      .ok ({ nodes := w.nodes ++
        [some { src := some src, dims := dims, auth := .sparse [],
                terminal := false }] },
        w.nodes.length)
    else .error .invalidArgument

/-- Modelled from the spec: the mutating operations of section 4.1. The
random source of randomize/addNoise is supplied as a list of candidate flat
indices together with the already-derived target bit count
round(sparsity * size); the floating-point fraction itself stays outside the
model. -/
inductive SetterOp where
  | setDense (values : List Nat)
  | setSparse (flat : List Nat)
  | setCoordinates (css : List (List Nat))
  | setSDR (other : Nat)
  | zero
  | randomize (count : Nat) (choices : List Nat)
  | addNoise (count : Nat) (choices : List Nat)

/-- Walk from a node to the base SDR at the root of its source chain and
return the base dimensions and authoritative encoding; any missing or
Detached-Terminal node on the way fails with InvalidState. The fuel only
serves termination: source ids strictly decrease in well-formed worlds. -/
def authAtAux (w : World) : Nat → Nat → Except Err (List Nat × Encoding)
  | 0, _ => .error .invalidState
  | fuel + 1, i =>
    match nodeAt w i with
    | none => .error .invalidState
    | some n =>
      if n.terminal then .error .invalidState
      else
        match n.src with
        | none => .ok (n.dims, n.auth)
        | some s => authAtAux w fuel s

/-- Authoritative base encoding reachable from node i. -/
def authAt (w : World) (i : Nat) : Except Err (List Nat × Encoding) :=
  authAtAux w (i + 1) i

/-- Modelled from the spec: getSparse returns the flat indices of the set
bits; a view re-derives them on demand from its source's authoritative
encoding (flat indices are reshape-invariant). Getters are modelled as pure
functions: the cache they fill in C++ never changes the returned values. -/
def getSparseE (w : World) (i : Nat) : Except Err (List Nat) :=
  match authAt w i with
  | .error e => .error e
  | .ok (bd, enc) => .ok (flatsOfEncoding bd enc)

/-- Dense vector of the given size with ones exactly at the listed flat
positions. -/
def denseFromFlats (size : Nat) (flats : List Nat) : List Nat :=
  (List.range size).map (fun i => if i ∈ flats then 1 else 0)

/-- Modelled from the spec: getDense under the node's own dimensions. -/
def getDenseE (w : World) (i : Nat) : Except Err (List Nat) :=
  match liveAt w i with
  | none => .error .invalidState
  | some n =>
    match getSparseE w i with
    | .error e => .error e
    | .ok fl => .ok (denseFromFlats n.dims.prod fl)

/-- Modelled from the spec: getCoordinates, the row-major mixed-radix
decomposition of the flat indices under the node's own dimensions. -/
def getCoordsE (w : World) (i : Nat) : Except Err (List (List Nat)) :=
  match liveAt w i with
  | none => .error .invalidState
  | some n =>
    match getSparseE w i with
    | .error e => .error e
    | .ok fl => .ok (coordsFromFlats n.dims fl)

/-- Projection of a base encoding into a node's own dimensions: dense and
sparse carry over unchanged (flat indices are reshape-invariant); the
coordinate lists are re-derived for the node's dimensions. -/
def projectEncoding (target bd : List Nat) : Encoding → Encoding
  | .dense values => .dense values
  | .sparse flat => .sparse flat
  | .coordinate css =>
    .coordinate (coordsFromFlats target (flatsFromCoords bd css))

/-- Modelled from the spec: applying a mutating operation to node i. Views
reject every mutating operation with InvalidState (a view has no
authoritative storage of its own); base nodes validate eagerly and replace
their authoritative encoding. An error leaves the world untouched. -/
def applySetterE (w : World) (i : Nat) (op : SetterOp) : Except Err World :=
  match nodeAt w i with
  | none => .error .invalidState
  | some n =>
    if n.terminal then .error .invalidState
    else
      match n.src with
      | some _ => .error .invalidState
      | none =>
        match op with
        | .setDense values =>
          if denseOkB n.dims values then
            .ok { nodes := w.nodes.set i (some { n with auth := .dense values }) }
          else .error .invalidArgument
        | .setSparse flat =>
          if sparseOkB n.dims flat then
            .ok { nodes := w.nodes.set i (some { n with auth := .sparse flat }) }
          else .error .invalidArgument
        | .setCoordinates css =>
          if coordOkB n.dims css then
            .ok { nodes := w.nodes.set i (some { n with auth := .coordinate css }) }
          else .error .invalidArgument
        | .setSDR other =>
          match liveAt w other with
          | none => .error .invalidState
          | some m =>
            if m.dims = n.dims then
              match authAt w other with
              | .error e => .error e
              | .ok (bd, enc) =>
                .ok (World.mk (w.nodes.set i
                  (some { n with auth := projectEncoding n.dims bd enc })))
            else .error .invalidArgument
        | .zero =>
          .ok { nodes := w.nodes.set i (some { n with auth := .sparse [] }) }
        | .randomize count choices =>
          if choices.all (· < n.dims.prod) && nodupB choices &&
              decide (count ≤ choices.length) then
            .ok (World.mk (w.nodes.set i
              (some { n with auth := .sparse (choices.take count) })))
          else .error .invalidArgument
        | .addNoise count choices =>
          if choices.all (· < n.dims.prod) && nodupB choices then
            let fl := flatsOfEncoding n.dims n.auth
            let kept := fl.take (fl.length - count)
            let added := (choices.filter (fun c => !(fl.contains c))).take count
            .ok (World.mk (w.nodes.set i
              (some { n with auth := .sparse (kept ++ added) })))
          else .error .invalidArgument

/-- Membership of node d in the subtree rooted at node c of the source
graph: d is c itself, or d's source chain passes through c. Fuel-based
recursion; source ids strictly decrease in well-formed worlds. -/
def inSubtreeB (w : World) (c : Nat) : Nat → Nat → Bool
  | 0, d => d == c
  | fuel + 1, d =>
    d == c ||
      match nodeAt w d with
      | some n =>
        match n.src with
        | some s => inSubtreeB w c fuel s
        | none => false
      | none => false

/-- Membership of d in the subtree rooted at c. -/
def inSubtree (w : World) (c : Nat) (d : Nat) : Bool :=
  inSubtreeB w c (d + 1) d

/-- Modelled from the spec: destroying node c broadcasts a destroy event
down the registration tree: c itself is deallocated (its id is never
reused) and every other node of its subtree transitions to the absorbing
Detached-Terminal state; nodes outside the subtree are untouched. -/
def destroy (w : World) (c : Nat) : World :=
  { nodes := (List.range w.nodes.length).map (fun j =>
      match nodeAt w j with
      | none => none
      | some n =>
        if j = c then none
        else if inSubtree w c j then some { n with terminal := true }
        else some n) }

/-- Modelled from the spec: the state-changing operations on the node
graph. -/
inductive WorldOp where
  | mkBase (dims : List Nat)
  | mkView (src : Nat) (dims : List Nat)
  | setter (i : Nat) (op : SetterOp)
  | destroyOp (i : Nat)

/-- Total transition function: a failing operation leaves the world
unchanged (a rejected call leaves prior state untouched, spec section 7). -/
def applyOp (w : World) : WorldOp → World
  | .mkBase dims =>
    match createBase w dims with
    | .ok (w2, _) => w2
    | .error _ => w
  | .mkView s dims =>
    match createView w s dims with
    | .ok (w2, _) => w2
    | .error _ => w
  | .setter i op =>
    match applySetterE w i op with
    | .ok w2 => w2
    | .error _ => w
  | .destroyOp i => destroy w i

/-- A sequence of operations, applied in order. -/
def applyOps (w : World) (ops : List WorldOp) : World :=
  ops.foldl applyOp w

/-- Structural well-formedness: every node has positive dimensions and every
view's source id is strictly smaller (sources are created first), with
matching sizes while the source is still allocated. Every world reachable
from the empty world satisfies it. -/
def wfB (w : World) : Bool :=
  (List.range w.nodes.length).all (fun j =>
    match nodeAt w j with
    | none => true
    | some n =>
      n.dims.all (0 < ·) &&
        match n.src with
        | none => true
        | some s =>
          decide (s < j) &&
            match nodeAt w s with
            | none => true
            | some m => n.dims.prod == m.dims.prod)

/-- Modelled from the spec (section 4.4): a saved stream holds a version
tag, the node's own dimensions, and a tag-plus-payload for the single
encoding that was authoritative at save time. -/
structure SerializedSDR where
  version : Nat
  dims : List Nat
  payload : Encoding
deriving DecidableEq

/-- Modelled from the spec: save materializes a snapshot of the node's own
current projected encoding under its own dimensions; the source/child
relationship is not part of the stream. -/
def saveE (w : World) (i : Nat) : Except Err SerializedSDR :=
  match liveAt w i with
  | none => .error .invalidState
  | some n =>
    match authAt w i with
    | .error e => .error e
    | .ok (bd, enc) =>
      .ok { version := 1, dims := n.dims,
            payload := projectEncoding n.dims bd enc }

/-- Modelled from the spec: load reconstructs the dimensions and then calls
the matching setter, so validation reuses the setter checks; the result is a
plain base SDR node with no source registration. An unknown version tag is a
FormatError. -/
def loadAsNode (sd : SerializedSDR) : Except Err Node :=
  if sd.version = 1 then
    if sd.dims.all (0 < ·) then
      if encodingOkB sd.dims sd.payload then
        .ok { src := none, dims := sd.dims, auth := sd.payload,
              terminal := false }
      else .error .invalidArgument
    else .error .invalidArgument
  else .error .formatError

/-- Order-independent comparison of two flat-index lists as sets. -/
def setEqB (l1 l2 : List Nat) : Bool :=
  l1.all (l2.contains ·) && l2.all (l1.contains ·)

/-- Decoded flat indices of a standalone base node. -/
def nodeFlats (n : Node) : List Nat := flatsOfEncoding n.dims n.auth

/-- SDR equality of section 4.1 between standalone base nodes: same
dimensions and same decoded set of flat indices. -/
def sdrEqB (n1 n2 : Node) : Bool :=
  n1.dims == n2.dims && setEqB (nodeFlats n1) (nodeFlats n2)

theorem nodeAt_none_of_ge {w : World} {j : Nat}
    (h : w.nodes.length ≤ j) : nodeAt w j = none := by
  unfold nodeAt
  rw [List.getD_eq_getElem?_getD, List.getElem?_eq_none h]
  rfl

theorem lt_length_of_nodeAt {w : World} {j : Nat} {n : Node}
    (h : nodeAt w j = some n) : j < w.nodes.length := by
  by_contra hge
  push_neg at hge
  rw [nodeAt_none_of_ge hge] at h
  cases h

theorem wfB_spec {w : World} (h : wfB w = true) {j : Nat} {n : Node}
    (hn : nodeAt w j = some n) :
    (∀ d ∈ n.dims, 0 < d) ∧
      ∀ s, n.src = some s → s < j ∧
        ∀ m, nodeAt w s = some m → n.dims.prod = m.dims.prod := by
  have hj : j < w.nodes.length := lt_length_of_nodeAt hn
  unfold wfB at h
  rw [List.all_eq_true] at h
  have hx := h j (List.mem_range.mpr hj)
  rw [hn] at hx
  simp only [Bool.and_eq_true, List.all_eq_true, decide_eq_true_eq] at hx
  refine ⟨hx.1, ?_⟩
  intro s hs
  have hx2 := hx.2
  rw [hs] at hx2
  simp only [Bool.and_eq_true, decide_eq_true_eq] at hx2
  refine ⟨hx2.1, ?_⟩
  intro m hm
  have hx3 := hx2.2
  rw [hm] at hx3
  simpa using hx3

theorem nodeAt_set_self {w : World} {i : Nat} (x : Option Node)
    (hi : i < w.nodes.length) :
    nodeAt (World.mk (w.nodes.set i x)) i = x := by
  unfold nodeAt
  simp [List.getD_eq_getElem?_getD, List.getElem?_set_eq_of_lt x hi]

theorem nodeAt_set_ne {w : World} {i j : Nat} (x : Option Node)
    (hne : i ≠ j) :
    nodeAt (World.mk (w.nodes.set i x)) j = nodeAt w j := by
  unfold nodeAt
  simp [List.getD_eq_getElem?_getD, List.getElem?_set_ne hne]

theorem authAtAux_base {w : World} {i : Nat} {n : Node} {fuel : Nat}
    (hfuel : 0 < fuel) (hn : nodeAt w i = some n)
    (hterm : n.terminal = false) (hsrc : n.src = none) :
    authAtAux w fuel i = .ok (n.dims, n.auth) := by
  cases fuel with
  | zero => omega
  | succ k =>
    unfold authAtAux
    simp [hn, hterm, hsrc]

theorem authAt_view_of_base {w : World} {v b : Nat} {nv nb : Node}
    (hv : nodeAt w v = some nv) (hvterm : nv.terminal = false)
    (hvsrc : nv.src = some b) (hlt : b < v)
    (hb : nodeAt w b = some nb) (hbterm : nb.terminal = false)
    (hbsrc : nb.src = none) :
    authAt w v = .ok (nb.dims, nb.auth) := by
  unfold authAt
  have h1 : authAtAux w (v + 1) v = authAtAux w v b := by
    simp only [authAtAux]
    simp [hv, hvterm, hvsrc]
  rw [h1]
  exact authAtAux_base (by omega) hb hbterm hbsrc

theorem applySetter_ok_shape {w w2 : World} {i : Nat} {n : Node}
    {op : SetterOp} (hn : nodeAt w i = some n) (hterm : n.terminal = false)
    (hsrc : n.src = none) (h : applySetterE w i op = .ok w2) :
    ∃ e, w2 = World.mk (w.nodes.set i (some { n with auth := e })) := by
  obtain ⟨nsrc, ndims, nauth, nterm⟩ := n
  simp only at hterm hsrc
  subst hterm
  subst hsrc
  unfold applySetterE at h
  simp only [hn, Bool.false_eq_true, if_false] at h
  cases op with
  | setDense values =>
    simp only [] at h
    split at h
    · exact ⟨_, ((Except.ok.injEq _ _).mp h).symm⟩
    · cases h
  | setSparse flat =>
    simp only [] at h
    split at h
    · exact ⟨_, ((Except.ok.injEq _ _).mp h).symm⟩
    · cases h
  | setCoordinates css =>
    simp only [] at h
    split at h
    · exact ⟨_, ((Except.ok.injEq _ _).mp h).symm⟩
    · cases h
  | setSDR other =>
    simp only [] at h
    cases hl : liveAt w other with
    | none => rw [hl] at h; cases h
    | some m =>
      rw [hl] at h
      simp only [] at h
      split at h
      · cases ha : authAt w other with
        | error e => rw [ha] at h; cases h
        | ok p =>
          rw [ha] at h
          exact ⟨_, ((Except.ok.injEq _ _).mp h).symm⟩
      · cases h
  | zero =>
    simp only [] at h
    exact ⟨_, ((Except.ok.injEq _ _).mp h).symm⟩
  | randomize count choices =>
    simp only [] at h
    split at h
    · exact ⟨_, ((Except.ok.injEq _ _).mp h).symm⟩
    · cases h
  | addNoise count choices =>
    simp only [] at h
    split at h
    · exact ⟨_, ((Except.ok.injEq _ _).mp h).symm⟩
    · cases h

/-- C1 (spec-modelled): for a base SDR and any Reshape view of it, after any
successful setter call on the base, the view's getSparse and getDense agree
exactly with the base's, and getCoordinates of either node is the row-major
mixed-radix decomposition of the shared flat indices under that node's own
dimensions. -/
theorem reshape_getters_invariant
    (w w2 : World) (b v : Nat) (nb nv : Node) (op : SetterOp)
    (hwf : wfB w = true)
    (hb : nodeAt w b = some nb) (hbsrc : nb.src = none)
    (hbterm : nb.terminal = false)
    (hv : nodeAt w v = some nv) (hvsrc : nv.src = some b)
    (hvterm : nv.terminal = false)
    (hset : applySetterE w b op = .ok w2) :
    getSparseE w2 v = getSparseE w2 b ∧
    getDenseE w2 v = getDenseE w2 b ∧
    (∀ fl, getSparseE w2 b = .ok fl →
      getCoordsE w2 v = .ok (coordsFromFlats nv.dims fl) ∧
      getCoordsE w2 b = .ok (coordsFromFlats nb.dims fl)) := by
  obtain ⟨e, hw2⟩ := applySetter_ok_shape hb hbterm hbsrc hset
  have hblt : b < w.nodes.length := lt_length_of_nodeAt hb
  have hlt : b < v := ((wfB_spec hwf hv).2 b hvsrc).1
  have hprod : nv.dims.prod = nb.dims.prod :=
    ((wfB_spec hwf hv).2 b hvsrc).2 nb hb
  have hb2 : nodeAt w2 b = some { nb with auth := e } := by
    rw [hw2]; exact nodeAt_set_self _ hblt
  have hv2 : nodeAt w2 v = some nv := by
    rw [hw2]; rw [nodeAt_set_ne _ (by omega)]; exact hv
  have hauthv : authAt w2 v = .ok (nb.dims, e) :=
    authAt_view_of_base hv2 hvterm hvsrc hlt hb2 hbterm hbsrc
  have hauthb : authAt w2 b = .ok (nb.dims, e) :=
    authAtAux_base (by omega) hb2 hbterm hbsrc
  have hsp : getSparseE w2 v = getSparseE w2 b := by
    unfold getSparseE
    rw [hauthv, hauthb]
  have hlivev : liveAt w2 v = some nv := by
    unfold liveAt
    simp [hv2, hvterm]
  have hliveb : liveAt w2 b = some { nb with auth := e } := by
    unfold liveAt
    simp [hb2, hbterm]
  refine ⟨hsp, ?_, ?_⟩
  · unfold getDenseE
    rw [hlivev, hliveb, hsp]
    cases hfl : getSparseE w2 b with
    | error er => rfl
    | ok fl => simp [hprod]
  · intro fl hfl
    unfold getCoordsE
    rw [hlivev, hliveb, hsp, hfl]
    exact ⟨rfl, rfl⟩

/-- Concrete operation chain of the reshape coordinate example: a base SDR
with dimensions 4 by 4, a view reshaped to 8 by 2, and
setCoordinates({{1,1,2},{0,1,2}}) on the base. -/
def exampleChain : World :=
  applyOps (World.mk [])
    [.mkBase [4, 4], .mkView 0 [8, 2],
     .setter 0 (.setCoordinates [[1, 1, 2], [0, 1, 2]])]

/-- C6 (spec-modelled): with base dimensions 4 by 4 and coordinates
{{1,1,2},{0,1,2}} (flat indices 4, 5, 10), the view reshaped to 8 by 2
reports coordinates {{2,2,5},{0,1,0}}. -/
theorem reshape_coordinates_example :
    getSparseE exampleChain 0 = .ok [4, 5, 10] ∧
    getSparseE exampleChain 1 = .ok [4, 5, 10] ∧
    getCoordsE exampleChain 0 = .ok [[1, 1, 2], [0, 1, 2]] ∧
    getCoordsE exampleChain 1 = .ok [[2, 2, 5], [0, 1, 0]] :=
  ⟨rfl, rfl, rfl, rfl⟩

/-- C3 (spec-modelled): any mutating operation invoked directly on a view
node fails with InvalidState, and the world — in particular the view's
source SDR — is left unchanged. -/
theorem view_setters_rejected (w : World) (v s : Nat) (nv : Node)
    (hv : nodeAt w v = some nv) (hsrc : nv.src = some s) (op : SetterOp) :
    applySetterE w v op = .error .invalidState ∧
    applyOp w (.setter v op) = w := by
  have h1 : applySetterE w v op = .error .invalidState := by
    unfold applySetterE
    simp only [hv]
    cases htv : nv.terminal with
    | true => simp
    | false => simp [hsrc]
  refine ⟨h1, ?_⟩
  unfold applyOp
  simp only []
  rw [h1]

/-- Concrete world with a base SDR of dimensions 2 by 3 (id 0) and a view
reshaped to 3 by 2 (id 1), used by the C3 witness. -/
def viewWorldExample : World :=
  applyOps (World.mk []) [.mkBase [2, 3], .mkView 0 [3, 2]]

/-- The view node of viewWorldExample. -/
def viewNodeExample : Node :=
  { src := some 0, dims := [3, 2], auth := .sparse [], terminal := false }

/-- Decidable equality for Except results, used to evaluate the model on
concrete worlds. -/
instance {E A : Type} [DecidableEq E] [DecidableEq A] :
    DecidableEq (Except E A) := fun a b =>
  match a, b with
  | .ok x, .ok y =>
    if h : x = y then .isTrue (by rw [h])
    else .isFalse (by intro hc; cases hc; exact h rfl)
  | .ok _, .error _ => .isFalse (by intro hc; cases hc)
  | .error _, .ok _ => .isFalse (by intro hc; cases hc)
  | .error e, .error f =>
    if h : e = f then .isTrue (by rw [h])
    else .isFalse (by intro hc; cases hc; exact h rfl)

/-- Base node with dimensions 2 by 3 used by the C1 witness. -/
def baseNodeExample23 : Node :=
  { src := none, dims := [2, 3], auth := .sparse [], terminal := false }

/-- World of the C1 witness after setSparse([2,3]) on the base. -/
def viewWorldExample2 : World :=
  applyOps (World.mk [])
    [.mkBase [2, 3], .mkView 0 [3, 2], .setter 0 (.setSparse [2, 3])]

/-- Witness for C1 on a 2-by-3 base with a 3-by-2 view and a concrete
setSparse call. -/
theorem reshape_getters_invariant_witness :
    (wfB viewWorldExample = true ∧
      nodeAt viewWorldExample 0 = some baseNodeExample23 ∧
      nodeAt viewWorldExample 1 = some viewNodeExample ∧
      applySetterE viewWorldExample 0 (.setSparse [2, 3]) =
        .ok viewWorldExample2) ∧
    (getSparseE viewWorldExample2 1 = getSparseE viewWorldExample2 0 ∧
      getDenseE viewWorldExample2 1 = getDenseE viewWorldExample2 0 ∧
      (∀ fl, getSparseE viewWorldExample2 0 = .ok fl →
        getCoordsE viewWorldExample2 1 =
          .ok (coordsFromFlats viewNodeExample.dims fl) ∧
        getCoordsE viewWorldExample2 0 =
          .ok (coordsFromFlats baseNodeExample23.dims fl))) :=
  ⟨⟨by decide, by decide, by decide, by decide⟩,
    reshape_getters_invariant viewWorldExample viewWorldExample2 0 1
      baseNodeExample23 viewNodeExample (.setSparse [2, 3]) (by decide)
      (by decide) (by decide) (by decide) (by decide) (by decide)
      (by decide) (by decide)⟩

/-- Witness for C3: each of the seven mutating operations, applied to the
concrete view, fails with InvalidState and leaves the world unchanged. -/
theorem view_setters_rejected_witness :
    nodeAt viewWorldExample 1 = some viewNodeExample ∧
    (applySetterE viewWorldExample 1 (.setDense [1, 1, 1, 1, 1, 1]) =
        .error .invalidState ∧
      applyOp viewWorldExample
        (.setter 1 (.setDense [1, 1, 1, 1, 1, 1])) = viewWorldExample) ∧
    (applySetterE viewWorldExample 1 (.setSparse [0, 1, 2]) =
        .error .invalidState ∧
      applyOp viewWorldExample
        (.setter 1 (.setSparse [0, 1, 2])) = viewWorldExample) ∧
    (applySetterE viewWorldExample 1 (.setCoordinates [[0], [0]]) =
        .error .invalidState ∧
      applyOp viewWorldExample
        (.setter 1 (.setCoordinates [[0], [0]])) = viewWorldExample) ∧
    (applySetterE viewWorldExample 1 (.setSDR 0) = .error .invalidState ∧
      applyOp viewWorldExample (.setter 1 (.setSDR 0)) = viewWorldExample) ∧
    (applySetterE viewWorldExample 1 .zero = .error .invalidState ∧
      applyOp viewWorldExample (.setter 1 .zero) = viewWorldExample) ∧
    (applySetterE viewWorldExample 1 (.randomize 1 [0]) =
        .error .invalidState ∧
      applyOp viewWorldExample
        (.setter 1 (.randomize 1 [0])) = viewWorldExample) ∧
    (applySetterE viewWorldExample 1 (.addNoise 1 [0]) =
        .error .invalidState ∧
      applyOp viewWorldExample
        (.setter 1 (.addNoise 1 [0])) = viewWorldExample) := by
  refine ⟨by decide, ?_, ?_, ?_, ?_, ?_, ?_, ?_⟩
  · exact view_setters_rejected viewWorldExample 1 0 viewNodeExample
      (by decide) (by decide) (.setDense [1, 1, 1, 1, 1, 1])
  · exact view_setters_rejected viewWorldExample 1 0 viewNodeExample
      (by decide) (by decide) (.setSparse [0, 1, 2])
  · exact view_setters_rejected viewWorldExample 1 0 viewNodeExample
      (by decide) (by decide) (.setCoordinates [[0], [0]])
  · exact view_setters_rejected viewWorldExample 1 0 viewNodeExample
      (by decide) (by decide) (.setSDR 0)
  · exact view_setters_rejected viewWorldExample 1 0 viewNodeExample
      (by decide) (by decide) .zero
  · exact view_setters_rejected viewWorldExample 1 0 viewNodeExample
      (by decide) (by decide) (.randomize 1 [0])
  · exact view_setters_rejected viewWorldExample 1 0 viewNodeExample
      (by decide) (by decide) (.addNoise 1 [0])

/-- C4 (spec-modelled): constructing a Reshape whose target dimension
product differs from the source's size, or whose target dimensions contain
a zero, fails with InvalidArgument; no view is created and the world (the
source's child registrations and state) is unchanged. -/
theorem reshape_construct_invalid (w : World) (b : Nat) (nb : Node)
    (dims2 : List Nat) (hwf : wfB w = true)
    (hb : nodeAt w b = some nb) (hterm : nb.terminal = false)
    (hbad : dims2.prod ≠ nb.dims.prod ∨ 0 ∈ dims2) :
    createView w b dims2 = .error .invalidArgument ∧
    applyOp w (.mkView b dims2) = w := by
  have hpos : 0 < nb.dims.prod := List.prod_pos (wfB_spec hwf hb).1
  have hne : dims2.prod ≠ nb.dims.prod := by
    rcases hbad with h | h
    · exact h
    · have hz : dims2.prod = 0 := List.prod_eq_zero h
      omega
  have hlive : liveAt w b = some nb := by
    unfold liveAt
    simp [hb, hterm]
  have h1 : createView w b dims2 = .error .invalidArgument := by
    unfold createView
    rw [hlive]
    simp only []
    rw [if_neg hne]
  refine ⟨h1, ?_⟩
  unfold applyOp
  simp only []
  rw [h1]

/-- Concrete world with one base SDR of dimensions {11}, used by the C4
witness. -/
def baseWorldExample : World := applyOps (World.mk []) [.mkBase [11]]

/-- The single node of baseWorldExample. -/
def baseNodeExample : Node :=
  { src := none, dims := [11], auth := .sparse [], terminal := false }

/-- Witness for C4: reshapes of an 11-element SDR to {2,5} (wrong product)
and to {11,0} (zero dimension) both fail with InvalidArgument and change
nothing. -/
theorem reshape_construct_invalid_witness :
    (wfB baseWorldExample = true ∧
      nodeAt baseWorldExample 0 = some baseNodeExample ∧
      ([2, 5].prod ≠ baseNodeExample.dims.prod ∨ (0 : Nat) ∈ [2, 5]) ∧
      ([11, 0].prod ≠ baseNodeExample.dims.prod ∨ (0 : Nat) ∈ [11, 0])) ∧
    (createView baseWorldExample 0 [2, 5] = .error .invalidArgument ∧
      applyOp baseWorldExample (.mkView 0 [2, 5]) = baseWorldExample) ∧
    (createView baseWorldExample 0 [11, 0] = .error .invalidArgument ∧
      applyOp baseWorldExample (.mkView 0 [11, 0]) = baseWorldExample) := by
  refine ⟨by decide, ?_, ?_⟩
  · exact reshape_construct_invalid baseWorldExample 0 baseNodeExample
      [2, 5] (by decide) (by decide) (by decide) (by decide)
  · exact reshape_construct_invalid baseWorldExample 0 baseNodeExample
      [11, 0] (by decide) (by decide) (by decide) (by decide)

/-- A node id that is allocated but dead: either deallocated (none) or in
the Detached-Terminal state. Such an id never becomes live again. -/
def deadAt (w : World) (j : Nat) : Bool :=
  decide (j < w.nodes.length) &&
    match nodeAt w j with
    | none => true
    | some n => n.terminal

theorem destroy_length (w : World) (c : Nat) :
    (destroy w c).nodes.length = w.nodes.length := by
  unfold destroy
  simp

theorem nodeAt_destroy (w : World) (c j : Nat) :
    nodeAt (destroy w c) j =
      match nodeAt w j with
      | none => none
      | some n =>
        if j = c then none
        else if inSubtree w c j then some { n with terminal := true }
        else some n := by
  by_cases hj : j < w.nodes.length
  · have h1 : nodeAt (destroy w c) j =
        (match nodeAt w j with
          | none => none
          | some n =>
            if j = c then none
            else if inSubtree w c j then some { n with terminal := true }
            else some n) := by
      unfold destroy nodeAt
      rw [List.getD_eq_getElem?_getD, List.getElem?_map,
        List.getElem?_range hj]
      rfl
    exact h1
  · have h1 : nodeAt w j = none := nodeAt_none_of_ge (by omega)
    have h2 : nodeAt (destroy w c) j = none := by
      apply nodeAt_none_of_ge
      rw [destroy_length]
      omega
    rw [h1, h2]

theorem inSubtree_self (w : World) (c : Nat) : inSubtree w c c = true := by
  unfold inSubtree
  simp [inSubtreeB]

theorem inSubtreeB_stable {w : World} (hwf : wfB w = true) (c : Nat) :
    ∀ d f g, d < f → d < g → inSubtreeB w c f d = inSubtreeB w c g d := by
  intro d
  induction d using Nat.strong_induction_on with
  | _ d ih =>
    intro f g hf hg
    obtain ⟨f2, rfl⟩ : ∃ f2, f = f2 + 1 := ⟨f - 1, by omega⟩
    obtain ⟨g2, rfl⟩ : ∃ g2, g = g2 + 1 := ⟨g - 1, by omega⟩
    simp only [inSubtreeB]
    cases hn : nodeAt w d with
    | none => rfl
    | some n =>
      simp only []
      cases hs : n.src with
      | none => simp [hs]
      | some s =>
        have hlt : s < d := ((wfB_spec hwf hn).2 s hs).1
        simp only [hs]
        rw [ih s hlt f2 g2 (by omega) (by omega)]

theorem nodeAt_destroy_outside {w : World} {c j : Nat}
    (hout : inSubtree w c j = false) :
    nodeAt (destroy w c) j = nodeAt w j := by
  rw [nodeAt_destroy]
  cases hn : nodeAt w j with
  | none => rfl
  | some n =>
    have hjc : j ≠ c := by
      intro he
      rw [he, inSubtree_self] at hout
      cases hout
    simp [hjc, hout]

theorem inSubtree_of_src {w : World} (hwf : wfB w = true) {c j s : Nat}
    {n : Node} (hn : nodeAt w j = some n) (hs : n.src = some s)
    (h : inSubtree w c s = true) : inSubtree w c j = true := by
  have hlt : s < j := ((wfB_spec hwf hn).2 s hs).1
  unfold inSubtree
  simp only [inSubtreeB, hn, hs]
  rw [inSubtreeB_stable hwf c s j (s + 1) hlt (by omega)]
  unfold inSubtree at h
  rw [h]
  simp

theorem inSubtree_src_closed {w : World} (hwf : wfB w = true) {c j s : Nat}
    {n : Node} (hn : nodeAt w j = some n) (hs : n.src = some s)
    (hout : inSubtree w c j = false) : inSubtree w c s = false := by
  cases hb : inSubtree w c s with
  | false => rfl
  | true => rw [inSubtree_of_src hwf hn hs hb] at hout; cases hout

theorem authAtAux_destroy_outside {w : World} (hwf : wfB w = true)
    (c : Nat) :
    ∀ fuel j, inSubtree w c j = false →
      authAtAux (destroy w c) fuel j = authAtAux w fuel j := by
  intro fuel
  induction fuel with
  | zero => intro j _; rfl
  | succ k ih =>
    intro j hout
    unfold authAtAux
    rw [nodeAt_destroy_outside hout]
    cases hn : nodeAt w j with
    | none => rfl
    | some n =>
      simp only []
      cases ht : n.terminal with
      | true => simp
      | false =>
        simp only [Bool.false_eq_true, if_false]
        cases hs : n.src with
        | none => rfl
        | some s => exact ih s (inSubtree_src_closed hwf hn hs hout)

theorem liveAt_destroy_outside {w : World} {c j : Nat}
    (hout : inSubtree w c j = false) :
    liveAt (destroy w c) j = liveAt w j := by
  unfold liveAt
  rw [nodeAt_destroy_outside hout]

theorem reads_destroy_outside {w : World} (hwf : wfB w = true) {c j : Nat}
    (hout : inSubtree w c j = false) :
    getSparseE (destroy w c) j = getSparseE w j ∧
    getDenseE (destroy w c) j = getDenseE w j ∧
    getCoordsE (destroy w c) j = getCoordsE w j := by
  have hsp : getSparseE (destroy w c) j = getSparseE w j := by
    unfold getSparseE authAt
    rw [authAtAux_destroy_outside hwf c (j + 1) j hout]
  refine ⟨hsp, ?_, ?_⟩
  · unfold getDenseE
    rw [liveAt_destroy_outside hout, hsp]
  · unfold getCoordsE
    rw [liveAt_destroy_outside hout, hsp]

theorem le_of_inSubtreeB {w : World} (hwf : wfB w = true) {c : Nat} :
    ∀ fuel d, inSubtreeB w c fuel d = true → c ≤ d := by
  intro fuel
  induction fuel with
  | zero =>
    intro d h
    unfold inSubtreeB at h
    exact le_of_eq (beq_iff_eq.mp h).symm
  | succ k ih =>
    intro d h
    unfold inSubtreeB at h
    rw [Bool.or_eq_true] at h
    rcases h with h | h
    · exact le_of_eq (beq_iff_eq.mp h).symm
    · cases hn : nodeAt w d with
      | none => rw [hn] at h; cases h
      | some n =>
        rw [hn] at h
        simp only [] at h
        cases hs : n.src with
        | none => rw [hs] at h; cases h
        | some s =>
          rw [hs] at h
          have h1 := ih s h
          have h2 : s < d := ((wfB_spec hwf hn).2 s hs).1
          omega

theorem outside_of_lt {w : World} (hwf : wfB w = true) {c j : Nat}
    (hj : j < c) : inSubtree w c j = false := by
  cases hb : inSubtree w c j with
  | false => rfl
  | true =>
    have := le_of_inSubtreeB hwf (j + 1) j hb
    omega

theorem parts_of_deadAt {w : World} {j : Nat} (h : deadAt w j = true) :
    j < w.nodes.length ∧
      (nodeAt w j = none ∨ ∃ n, nodeAt w j = some n ∧ n.terminal = true) := by
  unfold deadAt at h
  rw [Bool.and_eq_true, decide_eq_true_eq] at h
  refine ⟨h.1, ?_⟩
  have h2 := h.2
  cases hn : nodeAt w j with
  | none => exact Or.inl rfl
  | some n =>
    rw [hn] at h2
    simp only [] at h2
    exact Or.inr ⟨n, rfl, h2⟩

theorem deadAt_of_parts {w : World} {j : Nat} (hlen : j < w.nodes.length)
    (hd : nodeAt w j = none ∨ ∃ n, nodeAt w j = some n ∧ n.terminal = true) :
    deadAt w j = true := by
  unfold deadAt
  rw [Bool.and_eq_true, decide_eq_true_eq]
  refine ⟨hlen, ?_⟩
  rcases hd with h | ⟨n, hn, ht⟩
  · rw [h]
  · rw [hn]
    exact ht

theorem deadAt_read_error {w : World} {j : Nat} (h : deadAt w j = true) :
    getSparseE w j = .error .invalidState ∧
    getDenseE w j = .error .invalidState ∧
    getCoordsE w j = .error .invalidState := by
  obtain ⟨-, hd⟩ := parts_of_deadAt h
  have hl : liveAt w j = none := by
    unfold liveAt
    rcases hd with hn | ⟨n, hn, ht⟩
    · rw [hn]
    · rw [hn]
      simp [ht]
  have hs : getSparseE w j = .error .invalidState := by
    unfold getSparseE authAt authAtAux
    rcases hd with hn | ⟨n, hn, ht⟩
    · rw [hn]
    · rw [hn]
      simp [ht]
  refine ⟨hs, ?_, ?_⟩
  · unfold getDenseE
    rw [hl]
  · unfold getCoordsE
    rw [hl]

theorem nodeAt_append {w : World} {j : Nat} (x : Option Node)
    (hj : j < w.nodes.length) :
    nodeAt (World.mk (w.nodes ++ [x])) j = nodeAt w j := by
  unfold nodeAt
  rw [List.getD_eq_getElem?_getD, List.getD_eq_getElem?_getD,
    List.getElem?_append]
  rw [if_pos hj]

theorem applySetter_ok_inv {w w2 : World} {i : Nat} {op : SetterOp}
    (h : applySetterE w i op = .ok w2) :
    ∃ n e, nodeAt w i = some n ∧ n.terminal = false ∧ n.src = none ∧
      w2 = World.mk (w.nodes.set i (some { n with auth := e })) := by
  cases hn : nodeAt w i with
  | none =>
    unfold applySetterE at h
    rw [hn] at h
    cases h
  | some n =>
    cases ht : n.terminal with
    | true =>
      unfold applySetterE at h
      rw [hn] at h
      simp only [ht] at h
      simp at h
    | false =>
      cases hs : n.src with
      | some s =>
        unfold applySetterE at h
        rw [hn] at h
        simp only [ht, hs] at h
        simp at h
      | none =>
        obtain ⟨e, he⟩ := applySetter_ok_shape hn ht hs h
        exact ⟨n, e, rfl, ht, hs, he⟩

theorem deadAt_applyOp {w : World} {j : Nat} (h : deadAt w j = true)
    (o : WorldOp) : deadAt (applyOp w o) j = true := by
  obtain ⟨hlen, hd⟩ := parts_of_deadAt h
  cases o with
  | mkBase dims =>
    unfold applyOp
    simp only []
    cases hc : createBase w dims with
    | error e => exact h
    | ok p =>
      unfold createBase at hc
      split at hc
      · cases hc
        apply deadAt_of_parts
        · simp only [List.length_append, List.length_cons, List.length_nil]
          omega
        · rw [nodeAt_append _ hlen]
          exact hd
      · cases hc
  | mkView s dims =>
    unfold applyOp
    simp only []
    cases hc : createView w s dims with
    | error e => exact h
    | ok p =>
      unfold createView at hc
      cases hl : liveAt w s with
      | none => rw [hl] at hc; cases hc
      | some m =>
        rw [hl] at hc
        simp only [] at hc
        split at hc
        · cases hc
          apply deadAt_of_parts
          · simp only [List.length_append, List.length_cons,
              List.length_nil]
            omega
          · rw [nodeAt_append _ hlen]
            exact hd
        · cases hc
  | setter i op =>
    unfold applyOp
    simp only []
    cases hc : applySetterE w i op with
    | error e => exact h
    | ok w2 =>
      obtain ⟨n, e, hn, ht, hs, hw2⟩ := applySetter_ok_inv hc
      have hij : i ≠ j := by
        intro he
        subst he
        rcases hd with hnone | ⟨m, hm, hmt⟩
        · rw [hn] at hnone; cases hnone
        · rw [hn] at hm
          cases hm
          rw [ht] at hmt
          cases hmt
      subst hw2
      apply deadAt_of_parts
      · simp only [List.length_set]
        exact hlen
      · rw [nodeAt_set_ne _ hij]
        exact hd
  | destroyOp c =>
    unfold applyOp
    simp only []
    apply deadAt_of_parts
    · rw [destroy_length]; exact hlen
    · rw [nodeAt_destroy]
      rcases hd with hn | ⟨n, hn, ht⟩
      · rw [hn]
        exact Or.inl rfl
      · rw [hn]
        by_cases hjc : j = c
        · simp [hjc]
        · by_cases hsub : inSubtree w c j = true
          · simp [hjc, hsub]
          · simp only [Bool.not_eq_true] at hsub
            simp [hjc, hsub]
            exact ht

theorem deadAt_applyOps {w : World} {j : Nat} (h : deadAt w j = true)
    (ops : List WorldOp) : deadAt (applyOps w ops) j = true := by
  induction ops generalizing w with
  | nil => exact h
  | cons o ops ih => exact ih (deadAt_applyOp h o)

theorem inSubtree_node_exists {w : World} {c d : Nat}
    (h : inSubtree w c d = true) (hne : d ≠ c) :
    ∃ n, nodeAt w d = some n := by
  unfold inSubtree at h
  simp only [inSubtreeB] at h
  rw [Bool.or_eq_true] at h
  rcases h with h | h
  · exact absurd (beq_iff_eq.mp h) hne
  · cases hn : nodeAt w d with
    | none => rw [hn] at h; cases h
    | some n => exact ⟨n, rfl⟩

theorem deadAt_destroy_of_inSubtree {w : World} {c d : Nat} {nd : Node}
    (h : inSubtree w c d = true) (hn : nodeAt w d = some nd) :
    deadAt (destroy w c) d = true := by
  apply deadAt_of_parts
  · rw [destroy_length]
    exact lt_length_of_nodeAt hn
  · rw [nodeAt_destroy, hn]
    by_cases hdc : d = c
    · simp [hdc]
    · simp only [hdc, if_false, h, if_true]
      exact Or.inr ⟨{ nd with terminal := true }, rfl, rfl⟩

theorem applySetter_isOk_destroy_outside {w : World} {c j : Nat}
    (hout : inSubtree w c j = false) (op : SetterOp)
    (hnot : ∀ o, op ≠ .setSDR o) :
    (applySetterE (destroy w c) j op).isOk = (applySetterE w j op).isOk := by
  unfold applySetterE
  rw [nodeAt_destroy_outside hout]
  cases hn : nodeAt w j with
  | none => rfl
  | some n =>
    simp only []
    cases ht : n.terminal with
    | true => simp
    | false =>
      simp only [Bool.false_eq_true, if_false]
      cases hs : n.src with
      | some s => rfl
      | none =>
        cases op with
        | setDense values => simp only []; split <;> rfl
        | setSparse flat => simp only []; split <;> rfl
        | setCoordinates css => simp only []; split <;> rfl
        | setSDR o => exact absurd rfl (hnot o)
        | zero => rfl
        | randomize count choices => simp only []; split <;> rfl
        | addNoise count choices => simp only []; split <;> rfl

/-- C2 (spec-modelled): destroying an intermediate view kills its whole
subtree permanently — after the destroy and any further operation sequence,
every read on a strict descendant fails with InvalidState — while every
node outside the destroyed subtree (in particular the view's source and all
ancestors, whose ids are below the view's) keeps its exact state, its read
results, and the success/failure of direct mutating calls (other than
setSDR, whose outcome also depends on the node it copies from). -/
theorem destroy_subtree_teardown (w : World) (c p : Nat) (nc : Node)
    (hwf : wfB w = true) (_hview : nodeAt w c = some nc ∧ nc.src = some p) :
    (∀ d, inSubtree w c d = true → d ≠ c → ∀ ops : List WorldOp,
      getSparseE (applyOps (destroy w c) ops) d = .error .invalidState ∧
      getDenseE (applyOps (destroy w c) ops) d = .error .invalidState ∧
      getCoordsE (applyOps (destroy w c) ops) d = .error .invalidState) ∧
    (∀ j, inSubtree w c j = false →
      nodeAt (destroy w c) j = nodeAt w j ∧
      getSparseE (destroy w c) j = getSparseE w j ∧
      getDenseE (destroy w c) j = getDenseE w j ∧
      getCoordsE (destroy w c) j = getCoordsE w j ∧
      (∀ op : SetterOp, (∀ o, op ≠ .setSDR o) →
        (applySetterE (destroy w c) j op).isOk =
          (applySetterE w j op).isOk)) ∧
    (∀ j, j < c → inSubtree w c j = false) := by
  refine ⟨?_, ?_, ?_⟩
  · intro d hd hne ops
    obtain ⟨nd, hnd⟩ := inSubtree_node_exists hd hne
    have hdead : deadAt (destroy w c) d = true :=
      deadAt_destroy_of_inSubtree hd hnd
    exact deadAt_read_error (deadAt_applyOps hdead ops)
  · intro j hout
    obtain ⟨h1, h2, h3⟩ := reads_destroy_outside hwf hout
    exact ⟨nodeAt_destroy_outside hout, h1, h2, h3,
      fun op hnot => applySetter_isOk_destroy_outside hout op hnot⟩
  · intro j hj
    exact outside_of_lt hwf hj

/-- Concrete world of the teardown test: base SDR {12} (id 0), whole-SDR
view (id 1), view {3,4} (id 2), and two views of id 2: {4,3} (id 3) and
{2,6} (id 4). -/
def teardownWorldExample : World :=
  applyOps (World.mk [])
    [.mkBase [12], .mkView 0 [12], .mkView 0 [3, 4], .mkView 2 [4, 3],
     .mkView 2 [2, 6]]

/-- The intermediate view node (id 2) of teardownWorldExample. -/
def teardownViewNode : Node :=
  { src := some 0, dims := [3, 4], auth := .sparse [], terminal := false }

/-- Witness for C2: destroying view id 2 of the concrete five-node world. -/
theorem destroy_subtree_teardown_witness :
    (wfB teardownWorldExample = true ∧
      (nodeAt teardownWorldExample 2 = some teardownViewNode ∧
        teardownViewNode.src = some 0)) ∧
    ((∀ d, inSubtree teardownWorldExample 2 d = true → d ≠ 2 →
        ∀ ops : List WorldOp,
        getSparseE (applyOps (destroy teardownWorldExample 2) ops) d =
          .error .invalidState ∧
        getDenseE (applyOps (destroy teardownWorldExample 2) ops) d =
          .error .invalidState ∧
        getCoordsE (applyOps (destroy teardownWorldExample 2) ops) d =
          .error .invalidState) ∧
      (∀ j, inSubtree teardownWorldExample 2 j = false →
        nodeAt (destroy teardownWorldExample 2) j =
          nodeAt teardownWorldExample j ∧
        getSparseE (destroy teardownWorldExample 2) j =
          getSparseE teardownWorldExample j ∧
        getDenseE (destroy teardownWorldExample 2) j =
          getDenseE teardownWorldExample j ∧
        getCoordsE (destroy teardownWorldExample 2) j =
          getCoordsE teardownWorldExample j ∧
        (∀ op : SetterOp, (∀ o, op ≠ .setSDR o) →
          (applySetterE (destroy teardownWorldExample 2) j op).isOk =
            (applySetterE teardownWorldExample j op).isOk)) ∧
      (∀ j, j < 2 → inSubtree teardownWorldExample 2 j = false)) :=
  ⟨⟨by decide, by decide, by decide⟩,
    destroy_subtree_teardown teardownWorldExample 2 0 teardownViewNode
      (by decide) ⟨by decide, by decide⟩⟩

theorem nodupB_iff {l : List Nat} : nodupB l = true ↔ l.Nodup := by
  unfold nodupB
  rw [beq_iff_eq, eq_comm, List.dedup_eq_self]

theorem densePositions_nodup (values : List Nat) :
    (densePositions values).Nodup :=
  List.Nodup.filter _ (List.nodup_range _)

theorem densePositions_bounds {values : List Nat} :
    ∀ i ∈ densePositions values, i < values.length := by
  intro i hi
  unfold densePositions at hi
  rw [List.mem_filter] at hi
  exact List.mem_range.mp hi.1

theorem mem_zipWith_cases {f : Nat → Nat → Nat} :
    ∀ {l1 l2 x}, x ∈ List.zipWith f l1 l2 →
      ∃ a b, a ∈ l1 ∧ b ∈ l2 ∧ x = f a b := by
  intro l1
  induction l1 with
  | nil => intro l2 x hx; simp at hx
  | cons a l1 ih =>
    intro l2 x hx
    cases l2 with
    | nil => simp at hx
    | cons b l2 =>
      rw [List.zipWith_cons_cons, List.mem_cons] at hx
      rcases hx with h | h
      · exact ⟨a, b, by simp, by simp, h⟩
      · obtain ⟨a2, b2, h1, h2, h3⟩ := ih h
        exact ⟨a2, b2, by simp [h1], by simp [h2], h3⟩

theorem horner_bounds :
    ∀ (dims : List Nat) (css : List (List Nat)) (acc : List Nat) (B : Nat),
      (∀ d ∈ dims, 0 < d) →
      (∀ a ∈ acc, a < B) →
      (∀ p ∈ dims.zip css, ∀ c ∈ p.2, c < p.1) →
      ∀ x ∈ (dims.zip css).foldl
        (fun a p => List.zipWith (fun y c => y * p.1 + c) a p.2) acc,
        x < B * dims.prod := by
  intro dims
  induction dims with
  | nil =>
    intro css acc B _ hacc _ x hx
    rw [List.zip_nil_left] at hx
    simp only [List.foldl_nil] at hx
    simpa using hacc x hx
  | cons d rest ih =>
    intro css acc B hpos hacc hcb x hx
    cases css with
    | nil =>
      rw [List.zip_nil_right] at hx
      simp only [List.foldl_nil] at hx
      have h1 := hacc x hx
      have h2 : 0 < (d :: rest).prod := List.prod_pos hpos
      calc x < B := h1
        _ ≤ B * (d :: rest).prod := Nat.le_mul_of_pos_right _ h2
    | cons cs css2 =>
      rw [List.zip_cons_cons, List.foldl_cons] at hx
      have hacc1 : ∀ a ∈ List.zipWith (fun y c => y * d + c) acc cs,
          a < B * d := by
        intro a ha
        obtain ⟨a0, c0, ha0, hc0, heq⟩ := mem_zipWith_cases ha
        have h1 : a0 < B := hacc a0 ha0
        have h2 : c0 < d := hcb (d, cs) (by simp) c0 hc0
        subst heq
        calc a0 * d + c0 < a0 * d + d := by omega
          _ = (a0 + 1) * d := by ring
          _ ≤ B * d := Nat.mul_le_mul_right _ (by omega)
      have h3 := ih css2 _ (B * d) (fun d2 hd2 => hpos d2 (by simp [hd2]))
        hacc1 (fun p hp => hcb p (by simp [hp])) x hx
      rw [List.prod_cons]
      calc x < B * d * rest.prod := h3
        _ = B * (d * rest.prod) := by ring

theorem flatsFromCoords_bounds {dims : List Nat} {css : List (List Nat)}
    (hpos : ∀ d ∈ dims, 0 < d)
    (hcb : ∀ p ∈ dims.zip css, ∀ c ∈ p.2, c < p.1) :
    ∀ f ∈ flatsFromCoords dims css, f < dims.prod := by
  intro f hf
  unfold flatsFromCoords at hf
  have h := horner_bounds dims css
    (List.replicate (css.headD []).length 0) 1 hpos
    (by intro a ha; rw [List.mem_replicate] at ha; omega) hcb f hf
  simpa using h

theorem coordsFromFlats_length (dims flats : List Nat) :
    (coordsFromFlats dims flats).length = dims.length := by
  induction dims generalizing flats with
  | nil => rfl
  | cons d rest ih => simp [coordsFromFlats, ih]

theorem coordsFromFlats_inner_length {dims : List Nat} :
    ∀ {flats : List Nat} (cs : List Nat), cs ∈ coordsFromFlats dims flats →
      cs.length = flats.length := by
  induction dims with
  | nil => intro flats cs h; simp [coordsFromFlats] at h
  | cons d rest ih =>
    intro flats cs h
    simp only [coordsFromFlats, List.mem_cons] at h
    rcases h with h | h
    · simp [h]
    · have h2 := ih cs h
      simpa using h2

theorem coordsFromFlats_headD_length {dims flats : List Nat}
    (hne : dims ≠ []) :
    ((coordsFromFlats dims flats).headD []).length = flats.length := by
  cases dims with
  | nil => exact absurd rfl hne
  | cons d rest => simp [coordsFromFlats]

theorem coordsFromFlats_pairwise {dims : List Nat} :
    ∀ {flats : List Nat}, (∀ f ∈ flats, f < dims.prod) →
      ∀ p ∈ dims.zip (coordsFromFlats dims flats), ∀ c ∈ p.2, c < p.1 := by
  induction dims with
  | nil =>
    intro flats _ p hp
    rw [List.zip_nil_left] at hp
    simp at hp
  | cons d rest ih =>
    intro flats hb p hp
    simp only [coordsFromFlats, List.zip_cons_cons, List.mem_cons] at hp
    rcases hp with hp | hp
    · subst hp
      intro c hc
      simp only [] at hc
      rw [List.mem_map] at hc
      obtain ⟨f, hf, rfl⟩ := hc
      have h1 : f < d * rest.prod := by
        have h2 := hb f hf
        rwa [List.prod_cons] at h2
      have hp0 : 0 < rest.prod := by
        rcases Nat.eq_zero_or_pos rest.prod with h0 | h0
        · rw [h0, Nat.mul_zero] at h1; omega
        · exact h0
      exact (Nat.div_lt_iff_lt_mul hp0).mpr h1
    · intro c hc
      refine ih ?_ p hp c hc
      intro f2 hf2
      rw [List.mem_map] at hf2
      obtain ⟨f, hf, rfl⟩ := hf2
      rcases Nat.eq_zero_or_pos rest.prod with h0 | h0
      · have h1 := hb f hf
        rw [List.prod_cons, h0, Nat.mul_zero] at h1
        omega
      · exact Nat.mod_lt _ h0

theorem zipWith_unit :
    ∀ (acc flats : List Nat), acc.length = flats.length →
      (∀ f ∈ flats, f < 1) →
      List.zipWith (fun a f => a * 1 + f) acc flats = acc := by
  intro acc
  induction acc with
  | nil => intro flats _ _; simp
  | cons a acc ih =>
    intro flats hlen hb
    cases flats with
    | nil => simp at hlen
    | cons f fs =>
      have hf : f = 0 := by
        have h1 := hb f (by simp)
        omega
      simp only [List.zipWith_cons_cons]
      rw [hf, ih fs (by simpa using hlen) (fun x hx => hb x (by simp [hx]))]
      simp

theorem zipWith_horner_combine (d p : Nat) :
    ∀ (acc flats : List Nat),
      List.zipWith (fun a f => a * p + f)
        (List.zipWith (fun a c => a * d + c) acc (flats.map (· / p)))
        (flats.map (· % p)) =
      List.zipWith (fun a f => a * (d * p) + f) acc flats := by
  intro acc
  induction acc with
  | nil => intro flats; simp
  | cons a acc ih =>
    intro flats
    cases flats with
    | nil => simp
    | cons f fs =>
      simp only [List.map_cons, List.zipWith_cons_cons]
      rw [ih fs]
      congr 1
      calc (a * d + f / p) * p + f % p
          = a * (d * p) + (p * (f / p) + f % p) := by ring
        _ = a * (d * p) + f := by rw [Nat.div_add_mod]

theorem flatsFromCoords_foldl :
    ∀ (dims flats acc : List Nat), acc.length = flats.length →
      (∀ f ∈ flats, f < dims.prod) →
      (dims.zip (coordsFromFlats dims flats)).foldl
        (fun a p => List.zipWith (fun y c => y * p.1 + c) a p.2) acc =
      List.zipWith (fun a f => a * dims.prod + f) acc flats := by
  intro dims
  induction dims with
  | nil =>
    intro flats acc hlen hb
    simp only [coordsFromFlats, List.zip_nil_left, List.foldl_nil,
      List.prod_nil]
    exact (zipWith_unit acc flats hlen (by simpa using hb)).symm
  | cons d rest ih =>
    intro flats acc hlen hb
    simp only [coordsFromFlats, List.zip_cons_cons, List.foldl_cons]
    have hlen2 : (List.zipWith (fun y c => y * d + c) acc
        (flats.map (· / rest.prod))).length =
        (flats.map (· % rest.prod)).length := by
      rw [List.length_zipWith]
      simp [hlen]
    have hb2 : ∀ f2 ∈ flats.map (· % rest.prod), f2 < rest.prod := by
      intro f2 hf2
      rw [List.mem_map] at hf2
      obtain ⟨f, hf, rfl⟩ := hf2
      rcases Nat.eq_zero_or_pos rest.prod with h0 | h0
      · have h1 := hb f hf
        rw [List.prod_cons, h0, Nat.mul_zero] at h1
        omega
      · exact Nat.mod_lt _ h0
    rw [ih (flats.map (· % rest.prod)) _ hlen2 hb2,
      zipWith_horner_combine d rest.prod acc flats, List.prod_cons]

theorem zipWith_replicate_zero (P : Nat) :
    ∀ flats : List Nat,
      List.zipWith (fun a f => a * P + f)
        (List.replicate flats.length 0) flats = flats := by
  intro flats
  induction flats with
  | nil => rfl
  | cons f fs ih =>
    simp only [List.length_cons, List.replicate_succ,
      List.zipWith_cons_cons, ih]
    simp

theorem flats_coords_roundtrip {dims flats : List Nat} (hne : dims ≠ [])
    (hb : ∀ f ∈ flats, f < dims.prod) :
    flatsFromCoords dims (coordsFromFlats dims flats) = flats := by
  cases dims with
  | nil => exact absurd rfl hne
  | cons d rest =>
    unfold flatsFromCoords
    have hhead : ((coordsFromFlats (d :: rest) flats).headD []).length =
        flats.length :=
      coordsFromFlats_headD_length (by simp)
    rw [hhead, flatsFromCoords_foldl (d :: rest) flats _
      (by rw [List.length_replicate]) hb]
    exact zipWith_replicate_zero _ flats

theorem coordOkB_spec {dims : List Nat} {css : List (List Nat)}
    (h : coordOkB dims css = true) :
    css.length = dims.length ∧
    (∀ cs ∈ css, cs.length = (css.headD []).length) ∧
    (∀ p ∈ dims.zip css, ∀ c ∈ p.2, c < p.1) ∧
    nodupB (flatsFromCoords dims css) = true := by
  unfold coordOkB at h
  simp only [Bool.and_eq_true, List.all_eq_true, beq_iff_eq,
    decide_eq_true_eq] at h
  exact ⟨h.1.1.1, h.1.1.2, fun p hp => h.1.2 p hp, h.2⟩

theorem coordOkB_intro {dims : List Nat} {css : List (List Nat)}
    (h1 : css.length = dims.length)
    (h2 : ∀ cs ∈ css, cs.length = (css.headD []).length)
    (h3 : ∀ p ∈ dims.zip css, ∀ c ∈ p.2, c < p.1)
    (h4 : nodupB (flatsFromCoords dims css) = true) :
    coordOkB dims css = true := by
  unfold coordOkB
  simp only [Bool.and_eq_true, List.all_eq_true, beq_iff_eq,
    decide_eq_true_eq]
  exact ⟨⟨⟨h1, h2⟩, fun p hp => h3 p hp⟩, h4⟩

theorem sparseOkB_spec {dims : List Nat} {flat : List Nat}
    (h : sparseOkB dims flat = true) :
    (∀ f ∈ flat, f < dims.prod) ∧ nodupB flat = true := by
  unfold sparseOkB at h
  simp only [Bool.and_eq_true, List.all_eq_true, decide_eq_true_eq] at h
  exact ⟨h.1, h.2⟩

theorem sparseOkB_intro {dims : List Nat} {flat : List Nat}
    (h1 : ∀ f ∈ flat, f < dims.prod) (h2 : nodupB flat = true) :
    sparseOkB dims flat = true := by
  unfold sparseOkB
  simp only [Bool.and_eq_true, List.all_eq_true, decide_eq_true_eq]
  exact ⟨h1, h2⟩

theorem setEqB_self (l : List Nat) : setEqB l l = true := by
  unfold setEqB
  simp only [Bool.and_eq_true, List.all_eq_true]
  constructor <;>
    (intro x hx; exact List.elem_eq_true_of_mem hx)

/-- Projection of a valid base encoding onto a node with the same size is
again a valid encoding and decodes to exactly the same flat indices. -/
theorem projectEncoding_ok_and_flats {bd vd : List Nat} {enc : Encoding}
    (hbdpos : ∀ d ∈ bd, 0 < d) (hvne : vd ≠ [])
    (hprod : vd.prod = bd.prod) (hdata : encodingOkB bd enc = true) :
    encodingOkB vd (projectEncoding vd bd enc) = true ∧
    flatsOfEncoding vd (projectEncoding vd bd enc) =
      flatsOfEncoding bd enc := by
  cases enc with
  | dense values =>
    refine ⟨?_, rfl⟩
    unfold encodingOkB denseOkB at hdata
    rw [beq_iff_eq] at hdata
    show (values.length == vd.prod) = true
    rw [beq_iff_eq, hdata, hprod]
  | sparse flat =>
    refine ⟨?_, rfl⟩
    unfold encodingOkB at hdata
    show sparseOkB vd flat = true
    obtain ⟨hbnd, hnd⟩ := sparseOkB_spec hdata
    exact sparseOkB_intro (fun f hf => hprod ▸ hbnd f hf) hnd
  | coordinate css =>
    unfold encodingOkB at hdata
    obtain ⟨hc1, hc2, hc3, hc4⟩ := coordOkB_spec hdata
    have hfb : ∀ f ∈ flatsFromCoords bd css, f < vd.prod := by
      rw [hprod]
      exact flatsFromCoords_bounds hbdpos hc3
    have hrt : flatsFromCoords vd
        (coordsFromFlats vd (flatsFromCoords bd css)) =
        flatsFromCoords bd css :=
      flats_coords_roundtrip hvne hfb
    constructor
    · show coordOkB vd (coordsFromFlats vd (flatsFromCoords bd css)) = true
      apply coordOkB_intro
      · exact coordsFromFlats_length vd (flatsFromCoords bd css)
      · intro cs hcs
        rw [coordsFromFlats_inner_length cs hcs,
          coordsFromFlats_headD_length hvne]
      · exact coordsFromFlats_pairwise hfb
      · rw [hrt]
        exact hc4
    · show flatsFromCoords vd (coordsFromFlats vd (flatsFromCoords bd css)) =
        flatsFromCoords bd css
      exact hrt

/-- C5 amended (spec-modelled): saving a view and loading the stream gives a
plain, independent base SDR (no source registration, not terminal) whose
dimensions are the view's own and whose decoded flat indices are exactly the
source's; when the view's dimensions equal the source's — as in the
whole-SDR reshapes of the test for the zero, dense, sparse and coordinate
authoritative cases — the loaded node is equal (section 4.1) to the
source. -/
theorem save_load_view_materializes (w : World) (v b : Nat) (nv nb : Node)
    (hwf : wfB w = true)
    (hb : nodeAt w b = some nb) (hbsrc : nb.src = none)
    (hbterm : nb.terminal = false)
    (hv : nodeAt w v = some nv) (hvsrc : nv.src = some b)
    (hvterm : nv.terminal = false) (hvne : nv.dims ≠ [])
    (hdata : encodingOkB nb.dims nb.auth = true) :
    saveE w v = .ok (SerializedSDR.mk 1 nv.dims
      (projectEncoding nv.dims nb.dims nb.auth)) ∧
    ∃ nd, loadAsNode (SerializedSDR.mk 1 nv.dims
      (projectEncoding nv.dims nb.dims nb.auth)) = .ok nd ∧
      nd.src = none ∧ nd.terminal = false ∧ nd.dims = nv.dims ∧
      nodeFlats nd = flatsOfEncoding nb.dims nb.auth ∧
      (nv.dims = nb.dims → sdrEqB nd nb = true) := by
  have hlt : b < v := ((wfB_spec hwf hv).2 b hvsrc).1
  have hprod : nv.dims.prod = nb.dims.prod :=
    ((wfB_spec hwf hv).2 b hvsrc).2 nb hb
  have hlivev : liveAt w v = some nv := by
    unfold liveAt
    simp [hv, hvterm]
  have hauth : authAt w v = .ok (nb.dims, nb.auth) :=
    authAt_view_of_base hv hvterm hvsrc hlt hb hbterm hbsrc
  have hsave : saveE w v = .ok (SerializedSDR.mk 1 nv.dims
      (projectEncoding nv.dims nb.dims nb.auth)) := by
    unfold saveE
    rw [hlivev]
    simp only []
    rw [hauth]
  refine ⟨hsave, ?_⟩
  have hbdpos : ∀ d ∈ nb.dims, 0 < d := (wfB_spec hwf hb).1
  obtain ⟨hok, hflats⟩ :=
    projectEncoding_ok_and_flats hbdpos hvne hprod hdata
  have hposv : (nv.dims.all fun x => decide (0 < x)) = true := by
    rw [List.all_eq_true]
    intro x hx
    rw [decide_eq_true_eq]
    exact (wfB_spec hwf hv).1 x hx
  refine ⟨Node.mk none nv.dims
      (projectEncoding nv.dims nb.dims nb.auth) false,
    ?_, rfl, rfl, rfl, ?_, ?_⟩
  · unfold loadAsNode
    simp [hposv, hok]
  · unfold nodeFlats
    exact hflats
  · intro hdims
    unfold sdrEqB
    rw [Bool.and_eq_true]
    constructor
    · rw [beq_iff_eq]
      exact hdims
    · unfold nodeFlats
      rw [hflats]
      exact setEqB_self _

/-- Concrete world for the C5 counterexample: a base SDR {4} holding sparse
{1}, and a view of it reshaped to {2,2}. -/
def saveLoadCexWorld : World :=
  applyOps (World.mk [])
    [.mkBase [4], .setter 0 (.setSparse [1]), .mkView 0 [2, 2]]

/-- C5 counterexample: saving the {2,2} view of the {4} source and loading
it back yields a plain base SDR with the view's dimensions {2,2} and the
same flat indices, which is NOT equal (section 4.1) to the original source
SDR, whose dimensions are {4}. -/
theorem save_load_view_counterexample :
    saveE saveLoadCexWorld 1 =
      .ok (SerializedSDR.mk 1 [2, 2] (.sparse [1])) ∧
    loadAsNode (SerializedSDR.mk 1 [2, 2] (.sparse [1])) =
      .ok (Node.mk none [2, 2] (.sparse [1]) false) ∧
    nodeAt saveLoadCexWorld 0 =
      some (Node.mk none [4] (.sparse [1]) false) ∧
    sdrEqB (Node.mk none [2, 2] (.sparse [1]) false)
      (Node.mk none [4] (.sparse [1]) false) = false :=
  ⟨rfl, rfl, rfl, rfl⟩

/-- Concrete world for the C5 witness: a base SDR {2,3} with authoritative
coordinates {{0,1},{0,1}} and a whole-SDR view of it. -/
def saveLoadWorldExample : World :=
  applyOps (World.mk [])
    [.mkBase [2, 3], .mkView 0 [2, 3],
     .setter 0 (.setCoordinates [[0, 1], [0, 1]])]

/-- The view node of saveLoadWorldExample. -/
def saveLoadViewNode : Node := Node.mk (some 0) [2, 3] (.sparse []) false

/-- The base node of saveLoadWorldExample. -/
def saveLoadBaseNode : Node :=
  Node.mk none [2, 3] (.coordinate [[0, 1], [0, 1]]) false

/-- Witness for the amended C5 on the concrete coordinate-authoritative
case with a whole-SDR view. -/
theorem save_load_view_materializes_witness :
    (wfB saveLoadWorldExample = true ∧
      nodeAt saveLoadWorldExample 0 = some saveLoadBaseNode ∧
      nodeAt saveLoadWorldExample 1 = some saveLoadViewNode ∧
      saveLoadViewNode.dims ≠ [] ∧
      encodingOkB saveLoadBaseNode.dims saveLoadBaseNode.auth = true) ∧
    (saveE saveLoadWorldExample 1 = .ok (SerializedSDR.mk 1
      saveLoadViewNode.dims (projectEncoding saveLoadViewNode.dims
        saveLoadBaseNode.dims saveLoadBaseNode.auth)) ∧
    ∃ nd, loadAsNode (SerializedSDR.mk 1 saveLoadViewNode.dims
        (projectEncoding saveLoadViewNode.dims saveLoadBaseNode.dims
          saveLoadBaseNode.auth)) = .ok nd ∧
      nd.src = none ∧ nd.terminal = false ∧
      nd.dims = saveLoadViewNode.dims ∧
      nodeFlats nd =
        flatsOfEncoding saveLoadBaseNode.dims saveLoadBaseNode.auth ∧
      (saveLoadViewNode.dims = saveLoadBaseNode.dims →
        sdrEqB nd saveLoadBaseNode = true)) :=
  ⟨⟨by decide, by decide, by decide, by decide, by decide⟩,
    save_load_view_materializes saveLoadWorldExample 1 0 saveLoadViewNode
      saveLoadBaseNode (by decide) (by decide) (by decide) (by decide)
      (by decide) (by decide) (by decide) (by decide) (by decide)⟩

end HtmCore
